import Mathlib

/-!
Shallow embedding of the life-as-a-game rules/state-transition engine
(domain/state.ts, domain/transitions.ts, domain/engine.ts, domain/rules.ts,
domain/narrative.ts, http/state-serialization.ts), together with theorems
settling the specification claims about it.

Conventions of the embedding:
* TS `number` timestamps and stat values become `Int` (the code only ever
  adds, subtracts, compares and floors them at zero).
* A TS `Partial Record` keyed by a finite key type becomes a function into
  `Option`; iteration order of `Object.entries` is immaterial because keys
  of an object are unique.
* A TS `Set<string>` becomes `Finset String` (the spec gives flags no
  ordering semantics); `Array.from` of a set is modelled as the sorted
  listing of the finset.
* Optional fields become `Option`; JS truthiness tests on optional arrays
  become `match` on the option plus a non-emptiness test.
-/

namespace LifeGame

/-- The only three stat keys in v1 (`StatKey` in state.ts). -/
inductive StatKey
  | agency
  | courage
  | order
  deriving DecidableEq, Repr

instance : Fintype StatKey :=
  ⟨⟨{StatKey.agency, StatKey.courage, StatKey.order}, by decide⟩, by
    intro x; cases x <;> decide⟩

/-- `Stats = Record<StatKey, number>`: a total mapping from stat key to value. -/
abbrev Stats := StatKey → Int

/-- `Partial<Record<StatKey, number>>`: per-key optional deltas or minimums. -/
abbrev PartialStats := StatKey → Option Int

/-- Coarse time ranges (`TimeRange` in state.ts). -/
inductive TimeRange
  | recent
  | gap
  | long_gap
  deriving DecidableEq, Repr

/-- `TimeContext` in state.ts. -/
structure TimeContext where
  range : TimeRange
  nowMs : Int
  lastMeaningfulActionMs : Option Int
  deriving DecidableEq, Repr

/-- `Flags = Set<string>` in state.ts. -/
abbrev Flags := Finset String

/-- `CharacterState` in state.ts: the aggregate root. -/
structure CharacterState where
  stats : Stats
  flags : Flags
  timeContext : TimeContext

/-- Quest types mirror the three stat keys (`QuestType` in quests.ts). -/
inductive QuestType
  | agency
  | courage
  | order
  deriving DecidableEq, Repr

/-- `QuestConsequence` in quests.ts: optional stat deltas, flags to
set/clear, quest ids unlocked. -/
structure QuestConsequence where
  statChanges : Option PartialStats
  flagsToSet : Option (List String)
  flagsToClear : Option (List String)
  unlocksQuests : Option (List String)
  deriving DecidableEq

/-- `StatRequirement` in quests.ts: minimum stat thresholds. -/
structure StatRequirement where
  minimum : Option PartialStats
  deriving DecidableEq

/-- `FlagRequirement` in quests.ts: required and blocked flag lists. -/
structure FlagRequirement where
  required : Option (List String)
  blocked : Option (List String)
  deriving DecidableEq

/-- The `relevance` sub-object of `QuestAvailability` in quests.ts. -/
structure Relevance where
  preferredRanges : Option (List TimeRange)
  deriving DecidableEq, Repr

/-- `QuestAvailability` in quests.ts. -/
structure QuestAvailability where
  stats : Option StatRequirement
  flags : Option FlagRequirement
  relevance : Option Relevance
  deriving DecidableEq

/-- `QuestNodeWithAvailability` in quests.ts (the full quest record). -/
structure QuestNodeWithAvailability where
  id : String
  type : QuestType
  context : String
  realWorldAction : String
  constraint : String
  reflection : Option String
  consequence : QuestConsequence
  availability : QuestAvailability
  deriving DecidableEq

/-- `EngineEvent` in events.ts: the closed set of tagged outcome records. -/
inductive EngineEvent
  | quest_started (questId : String) (questType : QuestType)
  | quest_completed (questId : String) (questType : QuestType)
  | stat_changed (deltas : PartialStats)
  | flag_changed (flagsSet : Option (List String)) (flagsCleared : Option (List String))
  | quests_unlocked (questIds : List String)
  | time_context_changed (previousRange : TimeRange) (newRange : TimeRange)
  | re_entry_suggested (currentRange : TimeRange)

-- ============================================================================
-- transitions.ts
-- ============================================================================

/-- `COARSE_DEFAULT_TIME_THRESHOLDS_MS.RECENT` (~2 days, in ms). -/
def RECENT_THRESHOLD_MS : Int := 2 * 24 * 60 * 60 * 1000

/-- `COARSE_DEFAULT_TIME_THRESHOLDS_MS.LONG_GAP` (~7 days, in ms). -/
def LONG_GAP_THRESHOLD_MS : Int := 7 * 24 * 60 * 60 * 1000

/-- `computeTimeRange` in transitions.ts: coarse range from elapsed time
since last meaningful action, with negative elapsed time clamped to zero. -/
def computeTimeRange (lastMeaningfulActionMs : Option Int) (nowMs : Int) : TimeRange :=
  match lastMeaningfulActionMs with
  | none => TimeRange.long_gap
  | some last =>
    let elapsedMs := max 0 (nowMs - last)
    if elapsedMs < RECENT_THRESHOLD_MS then TimeRange.recent
    else if elapsedMs < LONG_GAP_THRESHOLD_MS then TimeRange.gap
    else TimeRange.long_gap

/-- `applyStatDeltas` in transitions.ts: per key with a delta, floor the sum
at zero; keys without a delta are untouched. -/
def applyStatDeltas (currentStats : Stats) (deltas : PartialStats) : Stats :=
  fun k =>
    match deltas k with
    | some delta => max 0 (currentStats k + delta)
    | none => currentStats k

/-- `applyFlagChanges` in transitions.ts: add `flagsToSet`, then remove
`flagsToClear`. -/
def applyFlagChanges (currentFlags : Flags)
    (flagsToSet flagsToClear : Option (List String)) : Flags :=
  let afterSet :=
    match flagsToSet with
    | some fs => fs.foldl (fun acc f => insert f acc) currentFlags
    | none => currentFlags
  match flagsToClear with
  | some fc => fc.foldl (fun acc f => acc.erase f) afterSet
  | none => afterSet

/-- `updateTimeContext` in transitions.ts: new range and timestamp; the
last-meaningful-action argument falls back (`??`) to the current context. -/
def updateTimeContext (currentContext : TimeContext) (newRange : TimeRange)
    (nowMs : Int) (lastMeaningfulActionMs : Option Int) : TimeContext :=
  { range := newRange
    nowMs := nowMs
    lastMeaningfulActionMs :=
      match lastMeaningfulActionMs with
      | some v => some v
      | none => currentContext.lastMeaningfulActionMs }

/-- Truthiness guard `consequence.statChanges && Object.keys(...).length > 0`
(restricted to the present case): does some key carry a delta? -/
def hasAnyDelta (deltas : PartialStats) : Bool :=
  (deltas StatKey.agency).isSome || (deltas StatKey.courage).isSome
    || (deltas StatKey.order).isSome

/-- `applyQuestStarted` in transitions.ts. -/
def applyQuestStarted (state : CharacterState) (questId : String)
    (questType : QuestType) (nowMs : Int) : CharacterState × List EngineEvent :=
  let newRange := TimeRange.recent
  let previousRange := state.timeContext.range
  let timeEvents : List EngineEvent :=
    if previousRange ≠ newRange then
      [EngineEvent.time_context_changed previousRange newRange]
    else []
  let newTimeContext := updateTimeContext state.timeContext newRange nowMs (some nowMs)
  ({ state with timeContext := newTimeContext },
    timeEvents ++ [EngineEvent.quest_started questId questType])

/-- `applyQuestCompleted` in transitions.ts: applies the quest consequence
and emits events in the fixed order stat / flag / unlock / time / completed. -/
def applyQuestCompleted (state : CharacterState)
    (quest : QuestNodeWithAvailability) (nowMs : Int) :
    CharacterState × List EngineEvent :=
  let consequence := quest.consequence
  let newStats : Stats :=
    match consequence.statChanges with
    | some deltas =>
      if hasAnyDelta deltas then applyStatDeltas state.stats deltas else state.stats
    | none => state.stats
  let statEvents : List EngineEvent :=
    match consequence.statChanges with
    | some deltas =>
      if hasAnyDelta deltas then [EngineEvent.stat_changed deltas] else []
    | none => []
  let hasFlagChanges : Bool :=
    (match consequence.flagsToSet with
     | some fs => decide (fs.length > 0)
     | none => false)
    || (match consequence.flagsToClear with
        | some fc => decide (fc.length > 0)
        | none => false)
  let newFlags : Flags :=
    if hasFlagChanges then
      applyFlagChanges state.flags consequence.flagsToSet consequence.flagsToClear
    else state.flags
  let flagEvents : List EngineEvent :=
    if hasFlagChanges then
      [EngineEvent.flag_changed consequence.flagsToSet consequence.flagsToClear]
    else []
  let unlockEvents : List EngineEvent :=
    match consequence.unlocksQuests with
    | some ids => if ids.length > 0 then [EngineEvent.quests_unlocked ids] else []
    | none => []
  let newRange := TimeRange.recent
  let previousRange := state.timeContext.range
  let timeEvents : List EngineEvent :=
    if previousRange ≠ newRange then
      [EngineEvent.time_context_changed previousRange newRange]
    else []
  let newTimeContext := updateTimeContext state.timeContext newRange nowMs (some nowMs)
  ({ stats := newStats, flags := newFlags, timeContext := newTimeContext },
    statEvents ++ flagEvents ++ unlockEvents ++ timeEvents
      ++ [EngineEvent.quest_completed quest.id quest.type])

/-- `applyTimeTick` in transitions.ts: recompute the range, emit
`time_context_changed` on change and `re_entry_suggested` on the edge
transition into a gap; never touches stats or flags. -/
def applyTimeTick (state : CharacterState) (nowMs : Int) :
    CharacterState × List EngineEvent :=
  let newRange := computeTimeRange state.timeContext.lastMeaningfulActionMs nowMs
  let previousRange := state.timeContext.range
  let changeEvents : List EngineEvent :=
    if previousRange ≠ newRange then
      [EngineEvent.time_context_changed previousRange newRange]
    else []
  let reentryEvents : List EngineEvent :=
    if (newRange = TimeRange.gap ∨ newRange = TimeRange.long_gap)
        ∧ ¬(previousRange = TimeRange.gap ∨ previousRange = TimeRange.long_gap) then
      [EngineEvent.re_entry_suggested newRange]
    else []
  let newTimeContext := updateTimeContext state.timeContext newRange nowMs
    state.timeContext.lastMeaningfulActionMs
  ({ state with timeContext := newTimeContext }, changeEvents ++ reentryEvents)

-- ============================================================================
-- engine.ts
-- ============================================================================

/-- The `QuestCatalog` interface reduced to its `getQuestById` method. -/
abbrev QuestCatalog := String → Option QuestNodeWithAvailability

/-- `tick` in engine.ts: delegates to `applyTimeTick`. -/
def tick (state : CharacterState) (nowMs : Int) :
    CharacterState × List EngineEvent :=
  applyTimeTick state nowMs

/-- `startQuest` in engine.ts: catalog lookup; a missing id is a silent
no-op. -/
def startQuest (state : CharacterState) (questId : String)
    (catalog : QuestCatalog) (nowMs : Int) : CharacterState × List EngineEvent :=
  match catalog questId with
  | none => (state, [])
  | some quest => applyQuestStarted state questId quest.type nowMs

/-- `completeQuest` in engine.ts: catalog lookup; a missing id is a silent
no-op. -/
def completeQuest (state : CharacterState) (questId : String)
    (catalog : QuestCatalog) (nowMs : Int) : CharacterState × List EngineEvent :=
  match catalog questId with
  | none => (state, [])
  | some quest => applyQuestCompleted state quest nowMs

-- ============================================================================
-- rules.ts
-- ============================================================================

/-- The listing of all stat keys, standing in for `Object.entries` of a
partial stat record. -/
def statKeyList : List StatKey :=
  [StatKey.agency, StatKey.courage, StatKey.order]

/-- `meetsStatRequirements` in rules.ts: every present minimum must be met. -/
def meetsStatRequirements (state : CharacterState)
    (statReq : StatRequirement) : Bool :=
  match statReq.minimum with
  | none => true
  | some minimum =>
    statKeyList.all fun k =>
      match minimum k with
      | some minimumValue => decide (minimumValue ≤ state.stats k)
      | none => true

/-- `meetsFlagRequirements` in rules.ts: all required flags present, no
blocked flag present. -/
def meetsFlagRequirements (state : CharacterState)
    (flagReq : FlagRequirement) : Bool :=
  let requiredOk :=
    match flagReq.required with
    | some req =>
      if req.length > 0 then req.all (fun f => decide (f ∈ state.flags)) else true
    | none => true
  let blockedOk :=
    match flagReq.blocked with
    | some blocked =>
      if blocked.length > 0 then blocked.all (fun f => decide (f ∉ state.flags))
      else true
    | none => true
  requiredOk && blockedOk

/-- `isQuestAvailable` in rules.ts: stat gate AND flag gate; time relevance
is never consulted. -/
def isQuestAvailable (state : CharacterState)
    (quest : QuestNodeWithAvailability) (_nowMs : Int) : Bool :=
  let statsOk :=
    match quest.availability.stats with
    | some statReq => meetsStatRequirements state statReq
    | none => true
  let flagsOk :=
    match quest.availability.flags with
    | some flagReq => meetsFlagRequirements state flagReq
    | none => true
  statsOk && flagsOk

/-- `filterAvailableQuests` in rules.ts. -/
def filterAvailableQuests (state : CharacterState)
    (quests : List QuestNodeWithAvailability) (nowMs : Int) :
    List QuestNodeWithAvailability :=
  quests.filter fun quest => isQuestAvailable state quest nowMs

/-- `rankQuests` in rules.ts: quests whose preferred ranges include the
current range come first; order inside each group is preserved. -/
def rankQuests (state : CharacterState)
    (quests : List QuestNodeWithAvailability) (_nowMs : Int) :
    List QuestNodeWithAvailability :=
  let currentRange := state.timeContext.range
  let isMatched : QuestNodeWithAvailability → Bool := fun quest =>
    let preferredRanges :=
      match quest.availability.relevance with
      | some rel => rel.preferredRanges.getD []
      | none => []
    decide (preferredRanges.length > 0) && preferredRanges.contains currentRange
  (quests.filter isMatched) ++ (quests.filter fun q => !(isMatched q))

/-- First pass of `selectQuestChoices`: walk the ranked list, keeping at
most one quest per quest type, stopping once `maxChoices` are selected. -/
def selectPassOne (maxChoices : Nat) :
    List QuestNodeWithAvailability → List QuestNodeWithAvailability →
    List QuestType → List QuestNodeWithAvailability
  | [], selected, _ => selected
  | quest :: rest, selected, usedTypes =>
    if selected.length ≥ maxChoices then selected
    else if quest.type ∈ usedTypes then
      selectPassOne maxChoices rest selected usedTypes
    else
      selectPassOne maxChoices rest (selected ++ [quest]) (quest.type :: usedTypes)

/-- Second pass of `selectQuestChoices`: fill remaining slots with quests
not already selected (membership via `includes`). -/
def selectPassTwo (maxChoices : Nat) :
    List QuestNodeWithAvailability → List QuestNodeWithAvailability →
    List QuestNodeWithAvailability
  | [], selected => selected
  | quest :: rest, selected =>
    if selected.length ≥ maxChoices then selected
    else if quest ∈ selected then
      selectPassTwo maxChoices rest selected
    else
      selectPassTwo maxChoices rest (selected ++ [quest])

/-- `selectQuestChoices` in rules.ts: return short lists unchanged,
otherwise pick for type variety first and fill up afterwards. -/
def selectQuestChoices (_state : CharacterState)
    (quests : List QuestNodeWithAvailability) (_nowMs : Int)
    (maxChoices : Nat := 3) : List QuestNodeWithAvailability :=
  if quests.length = 0 then []
  else if quests.length ≤ maxChoices then quests
  else selectPassTwo maxChoices quests (selectPassOne maxChoices quests [] [])

/-- `chooseQuests` in rules.ts: filter → rank → select. -/
def chooseQuests (state : CharacterState)
    (quests : List QuestNodeWithAvailability) (nowMs : Int)
    (maxChoices : Nat := 3) : List QuestNodeWithAvailability :=
  selectQuestChoices state
    (rankQuests state (filterAvailableQuests state quests nowMs) nowMs)
    nowMs maxChoices

-- ============================================================================
-- narrative.ts
-- ============================================================================

/-- `NarrativeTone` in narrative.ts. -/
inductive NarrativeTone
  | calm
  | warm
  | firm
  deriving DecidableEq, Repr

/-- `NarrativeSummary` in narrative.ts. -/
structure NarrativeSummary where
  tone : NarrativeTone
  title : String
  line : String
  shareText : Option String
  deriving DecidableEq, Repr

/-- `getQuestTypeLabel` in narrative.ts. -/
def getQuestTypeLabel (questType : QuestType) : String :=
  match questType with
  | QuestType.agency => "Agency"
  | QuestType.courage => "Courage"
  | QuestType.order => "Order"

/-- `getStatLabel` in narrative.ts. -/
def getStatLabel (stat : StatKey) : String :=
  match stat with
  | StatKey.agency => "Agency"
  | StatKey.courage => "Courage"
  | StatKey.order => "Order"

/-- `summarizeQuestCompleted` in narrative.ts. -/
def summarizeQuestCompleted (_questId : String) (questType : QuestType) :
    NarrativeSummary :=
  let questTypeLabel := getQuestTypeLabel questType
  { tone := NarrativeTone.warm
    title := "Action completed"
    line := "You took a step. " ++ questTypeLabel
      ++ " grows through action, not planning."
    shareText := some ("Completed a " ++ questTypeLabel
      ++ " quest. Small steps compound.") }

/-- `summarizeQuestStarted` in narrative.ts. -/
def summarizeQuestStarted (_questId : String) (_questType : QuestType) :
    NarrativeSummary :=
  { tone := NarrativeTone.calm
    title := "Quest started"
    line := "You began. Starting is enough. The rest will follow."
    shareText := none }

/-- `summarizeReEntrySuggested` in narrative.ts. -/
def summarizeReEntrySuggested (_currentRange : TimeRange) : NarrativeSummary :=
  { tone := NarrativeTone.calm
    title := "Return to action"
    line := "Time away is information, not judgment. A small step awaits when you\x27re ready."
    shareText := none }

/-- `summarizeTimeContextChanged` in narrative.ts. -/
def summarizeTimeContextChanged (_previousRange newRange : TimeRange) :
    NarrativeSummary :=
  match newRange with
  | TimeRange.recent =>
    { tone := NarrativeTone.calm
      title := "Momentum building"
      line := "Recent action shifts context. The path forward feels clearer."
      shareText := none }
  | _ =>
    { tone := NarrativeTone.calm
      title := "Time passed"
      line := "Context shifted. When you return, a small step will be waiting."
      shareText := none }

/-- `summarizeStatChanged` in narrative.ts (labels of the keys carrying a
delta, joined with " and "; `Object.keys` listed in key order). -/
def summarizeStatChanged (deltas : PartialStats) : NarrativeSummary :=
  let statLabels :=
    String.intercalate " and "
      ((statKeyList.filter fun k => (deltas k).isSome).map getStatLabel)
  { tone := NarrativeTone.warm
    title := "Growth noticed"
    line := statLabels ++ " shifts through action. Patterns emerge over time."
    shareText := none }

/-- `summarizeFlagChanged` in narrative.ts. -/
def summarizeFlagChanged (flagsSet _flagsCleared : Option (List String)) :
    NarrativeSummary :=
  match flagsSet with
  | some fs =>
    if fs.length > 0 then
      { tone := NarrativeTone.calm
        title := "Path opened"
        line := "Your choices shape what becomes available next."
        shareText := none }
    else
      { tone := NarrativeTone.calm
        title := "State updated"
        line := "Something shifted. The path forward adjusts."
        shareText := none }
  | none =>
    { tone := NarrativeTone.calm
      title := "State updated"
      line := "Something shifted. The path forward adjusts."
      shareText := none }

/-- Kind testers used by the `events.find(...)` calls in `summarize`. -/
def isQuestCompletedEvent : EngineEvent → Bool
  | EngineEvent.quest_completed _ _ => true
  | _ => false

def isQuestStartedEvent : EngineEvent → Bool
  | EngineEvent.quest_started _ _ => true
  | _ => false

def isReEntrySuggestedEvent : EngineEvent → Bool
  | EngineEvent.re_entry_suggested _ => true
  | _ => false

def isTimeContextChangedEvent : EngineEvent → Bool
  | EngineEvent.time_context_changed _ _ => true
  | _ => false

def isStatChangedEvent : EngineEvent → Bool
  | EngineEvent.stat_changed _ => true
  | _ => false

def isFlagChangedEvent : EngineEvent → Bool
  | EngineEvent.flag_changed _ _ => true
  | _ => false

/-- Result of the first `events.find` step of
`summarize`, mapped through its summarizer. -/
def foundQuestCompleted : Option EngineEvent → Option NarrativeSummary
  | some (EngineEvent.quest_completed questId questType) =>
    some (summarizeQuestCompleted questId questType)
  | _ => none

/-- The `quest_started` find-step of `summarize`. -/
def foundQuestStarted : Option EngineEvent → Option NarrativeSummary
  | some (EngineEvent.quest_started questId questType) =>
    some (summarizeQuestStarted questId questType)
  | _ => none

/-- The `re_entry_suggested` find-step of `summarize`. -/
def foundReEntrySuggested : Option EngineEvent → Option NarrativeSummary
  | some (EngineEvent.re_entry_suggested currentRange) =>
    some (summarizeReEntrySuggested currentRange)
  | _ => none

/-- The `time_context_changed` find-step of `summarize`. -/
def foundTimeContextChanged : Option EngineEvent → Option NarrativeSummary
  | some (EngineEvent.time_context_changed previousRange newRange) =>
    some (summarizeTimeContextChanged previousRange newRange)
  | _ => none

/-- The `stat_changed` find-step of `summarize`. -/
def foundStatChanged : Option EngineEvent → Option NarrativeSummary
  | some (EngineEvent.stat_changed deltas) => some (summarizeStatChanged deltas)
  | _ => none

/-- The `flag_changed` find-step of `summarize`. -/
def foundFlagChanged : Option EngineEvent → Option NarrativeSummary
  | some (EngineEvent.flag_changed flagsSet flagsCleared) =>
    some (summarizeFlagChanged flagsSet flagsCleared)
  | _ => none

/-- `summarize` in narrative.ts: empty list gives `null`; otherwise the
first event of the highest-priority kind present is summarized; the final
`return null` fallback is reached when no kind matches. -/
def summarize (events : List EngineEvent) (_state : CharacterState) :
    Option NarrativeSummary :=
  if events.length = 0 then none
  else
    match foundQuestCompleted (events.find? isQuestCompletedEvent) with
    | some s => some s
    | none =>
      match foundQuestStarted (events.find? isQuestStartedEvent) with
      | some s => some s
      | none =>
        match foundReEntrySuggested (events.find? isReEntrySuggestedEvent) with
        | some s => some s
        | none =>
          match foundTimeContextChanged (events.find? isTimeContextChangedEvent) with
          | some s => some s
          | none =>
            match foundStatChanged (events.find? isStatChangedEvent) with
            | some s => some s
            | none => foundFlagChanged (events.find? isFlagChangedEvent)

-- ============================================================================
-- http/state-serialization.ts
-- ============================================================================

/-- `StoredState` in state-serialization.ts: flags as a plain list. -/
structure StoredState where
  stats : Stats
  flags : List String
  timeContext : TimeContext

/-- `serializeState` in state-serialization.ts: `Array.from` of the flag
set, modelled as the canonical sorted listing of the finset. -/
def serializeState (state : CharacterState) : StoredState :=
  { stats := state.stats
    flags := state.flags.sort (· ≤ ·)
    timeContext := state.timeContext }

/-- `deserializeState` in state-serialization.ts: `new Set(stored.flags)`. -/
def deserializeState (stored : StoredState) : CharacterState :=
  { stats := stored.stats
    flags := stored.flags.toFinset
    timeContext := stored.timeContext }

/-- The extended `StoredState` of the Durable Object storage layer, which
additionally persists externally-tracked completion bookkeeping. -/
structure StoredStateWithCompletions where
  stats : Stats
  flags : List String
  timeContext : TimeContext
  completedQuestIds : List String
  completedAtByQuestId : String → Option Int

/-- The extended `serializeState`: the completion fields are managed
separately and merged in by the caller (default: empty). -/
def serializeStateWithCompletions (state : CharacterState)
    (completedQuestIds : List String := [])
    (completedAtByQuestId : String → Option Int := fun _ => none) :
    StoredStateWithCompletions :=
  { stats := state.stats
    flags := state.flags.sort (· ≤ ·)
    timeContext := state.timeContext
    completedQuestIds := completedQuestIds
    completedAtByQuestId := completedAtByQuestId }

/-- The extended `deserializeState`: the completion fields are dropped, as
the character state does not carry them. -/
def deserializeStateWithCompletions (stored : StoredStateWithCompletions) :
    CharacterState :=
  { stats := stored.stats
    flags := stored.flags.toFinset
    timeContext := stored.timeContext }

-- ============================================================================
-- Claim-side helper definitions
-- ============================================================================

/-- The delta a quest requests for one stat key, seen through the optional
`statChanges` block. -/
def questDelta (quest : QuestNodeWithAvailability) (k : StatKey) : Option Int :=
  match quest.consequence.statChanges with
  | some deltas => deltas k
  | none => none

/-- The event kinds `summarize` can turn into a summary; `quests_unlocked`
is the one kind without a summarizer. -/
def isSummarizable : EngineEvent → Bool
  | EngineEvent.quests_unlocked _ => false
  | _ => true

/-- The number of quests the first selection pass would take from a list
given already-used types: one per type not seen before. -/
def freshTypeCount : List QuestNodeWithAvailability → List QuestType → Nat
  | [], _ => 0
  | quest :: rest, usedTypes =>
    if quest.type ∈ usedTypes then freshTypeCount rest usedTypes
    else 1 + freshTypeCount rest (quest.type :: usedTypes)

-- ============================================================================
-- Sample inputs for concrete witnesses
-- ============================================================================

/-- A fresh default-like character state (baseline stats, no flags, long
gap with no history). -/
def sampleState : CharacterState :=
  { stats := fun _ => 1
    flags := ∅
    timeContext := { range := TimeRange.long_gap, nowMs := 0, lastMeaningfulActionMs := none } }

/-- A state whose range is `recent` but whose clock has recorded a last
meaningful action in the future of the tick instant. -/
def aheadOfClockState : CharacterState :=
  { stats := fun _ => 1
    flags := ∅
    timeContext := { range := TimeRange.recent, nowMs := 100, lastMeaningfulActionMs := some 100 } }

/-- A state with `recent` range and no recorded action, so that a tick
computes `long_gap` and crosses the edge into inactivity. -/
def recentNoHistoryState : CharacterState :=
  { stats := fun _ => 1
    flags := ∅
    timeContext := { range := TimeRange.recent, nowMs := 0, lastMeaningfulActionMs := none } }

/-- A state carrying a negative courage value (expressible because stats
are plain numbers in the code). -/
def negativeCourageState : CharacterState :=
  { stats := fun k => match k with
      | StatKey.courage => -1
      | _ => 0
    flags := ∅
    timeContext := { range := TimeRange.recent, nowMs := 0, lastMeaningfulActionMs := some 0 } }

/-- A quest whose only consequence is a +1 agency delta. -/
def plusAgencyQuest : QuestNodeWithAvailability :=
  { id := "q-plus-agency"
    type := QuestType.agency
    context := "ctx"
    realWorldAction := "act"
    constraint := "cstr"
    reflection := none
    consequence :=
      { statChanges := some fun k => match k with
          | StatKey.agency => some 1
          | _ => none
        flagsToSet := none
        flagsToClear := none
        unlocksQuests := none }
    availability := { stats := none, flags := none, relevance := none } }

/-- A quest with a rich consequence exercising every event branch. -/
def fullConsequenceQuest : QuestNodeWithAvailability :=
  { id := "q-full"
    type := QuestType.courage
    context := "ctx"
    realWorldAction := "act"
    constraint := "cstr"
    reflection := some "refl"
    consequence :=
      { statChanges := some fun k => match k with
          | StatKey.courage => some 2
          | _ => none
        flagsToSet := some ["flag-a"]
        flagsToClear := some ["flag-b"]
        unlocksQuests := some ["q-next"] }
    availability := { stats := none, flags := none, relevance := none } }

/-- A catalog with no quests at all. -/
def emptyCatalog : QuestCatalog := fun _ => none

/-- A second agency quest, distinct from `plusAgencyQuest`. -/
def secondAgencyQuest : QuestNodeWithAvailability :=
  { plusAgencyQuest with id := "q-agency-2" }

/-- An order-type quest with no consequence payloads. -/
def plainOrderQuest : QuestNodeWithAvailability :=
  { id := "q-order"
    type := QuestType.order
    context := "ctx"
    realWorldAction := "act"
    constraint := "cstr"
    reflection := none
    consequence :=
      { statChanges := none, flagsToSet := none, flagsToClear := none,
        unlocksQuests := none }
    availability := { stats := none, flags := none, relevance := none } }

/-- A ranked list of four distinct quests covering all three types. -/
def rankedSampleQuests : List QuestNodeWithAvailability :=
  [plusAgencyQuest, fullConsequenceQuest, plainOrderQuest, secondAgencyQuest]

-- ============================================================================
-- Claim theorems
-- ============================================================================

/-- C3: when the catalog has no quest for the requested id, both
`startQuest` and `completeQuest` return the input state unchanged together
with an empty event list. -/
theorem questNotFound_silent_noop (state : CharacterState) (questId : String)
    (catalog : QuestCatalog) (nowMs : Int)
    (h : catalog questId = none) :
    startQuest state questId catalog nowMs = (state, []) ∧
    completeQuest state questId catalog nowMs = (state, []) := by
  constructor <;> simp [startQuest, completeQuest, h]

/-- Witness for C3 at a concrete state, id and catalog. -/
theorem questNotFound_silent_noop_witness :
    emptyCatalog "missing-id" = none ∧
    startQuest sampleState "missing-id" emptyCatalog 42 = (sampleState, []) ∧
    completeQuest sampleState "missing-id" emptyCatalog 42 = (sampleState, []) :=
  ⟨rfl,
    (questNotFound_silent_noop sampleState "missing-id" emptyCatalog 42 rfl).1,
    (questNotFound_silent_noop sampleState "missing-id" emptyCatalog 42 rfl).2⟩

/-- C4: a time tick never changes stats, flags, or the recorded last
meaningful action; the engine `tick` is exactly `applyTimeTick`. -/
theorem applyTimeTick_stagnation_frame (state : CharacterState) (nowMs : Int) :
    (applyTimeTick state nowMs).1.stats = state.stats ∧
    (applyTimeTick state nowMs).1.flags = state.flags ∧
    (applyTimeTick state nowMs).1.timeContext.lastMeaningfulActionMs
      = state.timeContext.lastMeaningfulActionMs ∧
    tick state nowMs = applyTimeTick state nowMs := by
  refine ⟨rfl, rfl, ?_, rfl⟩
  simp only [applyTimeTick, updateTimeContext]
  cases state.timeContext.lastMeaningfulActionMs <;> rfl

/-- C10: a clock that moved backwards (recorded last action strictly after
now) classifies as `recent`: negative elapsed time is clamped to zero. -/
theorem applyTimeTick_clock_backwards (state : CharacterState)
    (nowMs lastMs : Int)
    (hlast : state.timeContext.lastMeaningfulActionMs = some lastMs)
    (hgt : nowMs < lastMs) :
    computeTimeRange state.timeContext.lastMeaningfulActionMs nowMs
      = TimeRange.recent ∧
    (applyTimeTick state nowMs).1.timeContext.range = TimeRange.recent := by
  have hmax : max 0 (nowMs - lastMs) = 0 := by omega
  have h1 : computeTimeRange state.timeContext.lastMeaningfulActionMs nowMs
      = TimeRange.recent := by
    rw [hlast]
    simp only [computeTimeRange, hmax]
    norm_num [RECENT_THRESHOLD_MS]
  exact ⟨h1, by simp [applyTimeTick, updateTimeContext, h1]⟩

/-- Witness for C10: last action at 100 ms, tick at 50 ms. -/
theorem applyTimeTick_clock_backwards_witness :
    aheadOfClockState.timeContext.lastMeaningfulActionMs = some 100 ∧
    (50 : Int) < 100 ∧
    computeTimeRange aheadOfClockState.timeContext.lastMeaningfulActionMs 50
      = TimeRange.recent ∧
    (applyTimeTick aheadOfClockState 50).1.timeContext.range = TimeRange.recent :=
  ⟨rfl, by norm_num,
    (applyTimeTick_clock_backwards aheadOfClockState 50 100 rfl (by norm_num)).1,
    (applyTimeTick_clock_backwards aheadOfClockState 50 100 rfl (by norm_num)).2⟩

/-- C9: serialization round-trips: deserializing a serialized state gives
back the state; serializing a deserialized snapshot preserves stats, time
context, and the set of flags (order of the flags list not significant);
the same holds for the storage-layer variant when the externally-managed
completion fields are merged back in as its contract instructs. -/
theorem serialization_roundtrip :
    (∀ state : CharacterState, deserializeState (serializeState state) = state) ∧
    (∀ stored : StoredState,
      (serializeState (deserializeState stored)).stats = stored.stats ∧
      (serializeState (deserializeState stored)).timeContext = stored.timeContext ∧
      (serializeState (deserializeState stored)).flags.toFinset
        = stored.flags.toFinset) ∧
    (∀ (state : CharacterState) (cq : List String) (cat : String → Option Int),
      deserializeStateWithCompletions
        (serializeStateWithCompletions state cq cat) = state) ∧
    (∀ stored : StoredStateWithCompletions,
      (serializeStateWithCompletions (deserializeStateWithCompletions stored)
        stored.completedQuestIds stored.completedAtByQuestId).stats
          = stored.stats ∧
      (serializeStateWithCompletions (deserializeStateWithCompletions stored)
        stored.completedQuestIds stored.completedAtByQuestId).timeContext
          = stored.timeContext ∧
      (serializeStateWithCompletions (deserializeStateWithCompletions stored)
        stored.completedQuestIds stored.completedAtByQuestId).flags.toFinset
          = stored.flags.toFinset ∧
      (serializeStateWithCompletions (deserializeStateWithCompletions stored)
        stored.completedQuestIds stored.completedAtByQuestId).completedQuestIds
          = stored.completedQuestIds ∧
      (serializeStateWithCompletions (deserializeStateWithCompletions stored)
        stored.completedQuestIds stored.completedAtByQuestId).completedAtByQuestId
          = stored.completedAtByQuestId) := by
  refine ⟨?_, ?_, ?_, ?_⟩
  · intro state
    cases state with
    | mk stats flags timeContext =>
      simp [serializeState, deserializeState, Finset.sort_toFinset]
  · intro stored
    refine ⟨rfl, rfl, ?_⟩
    simp [serializeState, deserializeState, Finset.sort_toFinset]
  · intro state cq cat
    cases state with
    | mk stats flags timeContext =>
      simp [serializeStateWithCompletions, deserializeStateWithCompletions,
        Finset.sort_toFinset]
  · intro stored
    refine ⟨rfl, rfl, ?_, rfl, rfl⟩
    simp [serializeStateWithCompletions, deserializeStateWithCompletions,
      Finset.sort_toFinset]

/-- Per-key description of the stats produced by `applyQuestCompleted`:
keys with a delta are floored sums, keys without are untouched. -/
lemma applyQuestCompleted_stats_eq (state : CharacterState)
    (quest : QuestNodeWithAvailability) (nowMs : Int) (k : StatKey) :
    (applyQuestCompleted state quest nowMs).1.stats k =
      match questDelta quest k with
      | some d => max 0 (state.stats k + d)
      | none => state.stats k := by
  simp only [applyQuestCompleted, questDelta]
  rcases hsc : quest.consequence.statChanges with _ | deltas
  · rfl
  · cases hd : hasAnyDelta deltas
    · have hnone : deltas k = none := by
        cases ha : deltas StatKey.agency <;>
          cases hc : deltas StatKey.courage <;>
          cases ho : deltas StatKey.order <;>
          simp [hasAnyDelta, ha, hc, ho] at hd
        cases k <;> assumption
      simp [hd, hnone]
    · simp only [hd, if_pos, applyStatDeltas]

/-- C1 (amended): each stat key with a delta d is updated to
max(0, old + d), keys without a delta are unchanged, and when the input
stats are non-negative the resulting stats are non-negative. -/
theorem applyQuestCompleted_stat_update (state : CharacterState)
    (quest : QuestNodeWithAvailability) (nowMs : Int) :
    (∀ k d, questDelta quest k = some d →
      (applyQuestCompleted state quest nowMs).1.stats k
        = max 0 (state.stats k + d)) ∧
    (∀ k, questDelta quest k = none →
      (applyQuestCompleted state quest nowMs).1.stats k = state.stats k) ∧
    ((∀ k, 0 ≤ state.stats k) →
      ∀ k, 0 ≤ (applyQuestCompleted state quest nowMs).1.stats k) := by
  refine ⟨?_, ?_, ?_⟩
  · intro k d hk
    rw [applyQuestCompleted_stats_eq, hk]
  · intro k hk
    rw [applyQuestCompleted_stats_eq, hk]
  · intro hpos k
    rw [applyQuestCompleted_stats_eq]
    rcases questDelta quest k with _ | d
    · exact hpos k
    · exact le_max_left 0 _

/-- Witness for C1 (amended) at a concrete state and quest. -/
theorem applyQuestCompleted_stat_update_witness :
    questDelta plusAgencyQuest StatKey.agency = some 1 ∧
    (applyQuestCompleted sampleState plusAgencyQuest 7).1.stats StatKey.agency
      = max 0 (sampleState.stats StatKey.agency + 1) ∧
    questDelta plusAgencyQuest StatKey.order = none ∧
    (applyQuestCompleted sampleState plusAgencyQuest 7).1.stats StatKey.order
      = sampleState.stats StatKey.order ∧
    (0 : Int) ≤ (applyQuestCompleted sampleState plusAgencyQuest 7).1.stats StatKey.courage :=
  ⟨rfl,
    (applyQuestCompleted_stat_update sampleState plusAgencyQuest 7).1
      StatKey.agency 1 rfl,
    rfl,
    (applyQuestCompleted_stat_update sampleState plusAgencyQuest 7).2.1
      StatKey.order rfl,
    (applyQuestCompleted_stat_update sampleState plusAgencyQuest 7).2.2
      (fun k => by cases k <;> decide) StatKey.courage⟩

/-- C1 counterexample: a state holding a negative courage value keeps it
through `applyQuestCompleted`, so the unconditional "resulting stats are
never negative" clause of the claim is false on the code. -/
theorem applyQuestCompleted_negative_stat_counterexample :
    ¬ (∀ k, 0 ≤ (applyQuestCompleted negativeCourageState plusAgencyQuest 0).1.stats k) := by
  intro h
  have := h StatKey.courage
  revert this
  decide

/-- C5: a tick emits `re_entry_suggested` exactly on the edge transition
into `gap` or `long_gap`; a state already in a gap never re-emits it. -/
theorem applyTimeTick_reentry_edge (state : CharacterState) (nowMs : Int) :
    (∀ r, EngineEvent.re_entry_suggested r ∈ (applyTimeTick state nowMs).2 ↔
      (r = computeTimeRange state.timeContext.lastMeaningfulActionMs nowMs ∧
        (r = TimeRange.gap ∨ r = TimeRange.long_gap) ∧
        ¬(state.timeContext.range = TimeRange.gap ∨
          state.timeContext.range = TimeRange.long_gap))) ∧
    ((state.timeContext.range = TimeRange.gap ∨
        state.timeContext.range = TimeRange.long_gap) →
      ∀ r, EngineEvent.re_entry_suggested r ∉ (applyTimeTick state nowMs).2) := by
  constructor
  · intro r
    simp only [applyTimeTick, List.mem_append]
    constructor
    · intro h
      rcases h with h | h
      · by_cases hne : state.timeContext.range
            = computeTimeRange state.timeContext.lastMeaningfulActionMs nowMs
        · simp [hne] at h
        · simp [if_neg, hne] at h
      · by_cases hcond : (computeTimeRange state.timeContext.lastMeaningfulActionMs nowMs
              = TimeRange.gap ∨
            computeTimeRange state.timeContext.lastMeaningfulActionMs nowMs
              = TimeRange.long_gap) ∧
            ¬(state.timeContext.range = TimeRange.gap ∨
              state.timeContext.range = TimeRange.long_gap)
        · rw [if_pos hcond] at h
          simp at h
          exact ⟨h, h ▸ hcond⟩
        · rw [if_neg hcond] at h
          simp at h
    · rintro ⟨rfl, hnew, hold⟩
      right
      rw [if_pos ⟨hnew, hold⟩]
      simp
  · intro hold r hmem
    simp only [applyTimeTick, List.mem_append] at hmem
    rcases hmem with h | h
    · by_cases hne : state.timeContext.range
          = computeTimeRange state.timeContext.lastMeaningfulActionMs nowMs
      · simp [hne] at h
      · simp [if_neg, hne] at h
    · rw [if_neg (by intro hc; exact hc.2 hold)] at h
      simp at h

/-- Witness for C5: a tick from `recent` with no history crosses into
`long_gap` and emits `re_entry_suggested`; a second tick from the
resulting gap state does not. -/
theorem applyTimeTick_reentry_edge_witness :
    EngineEvent.re_entry_suggested TimeRange.long_gap
      ∈ (applyTimeTick recentNoHistoryState 5).2 ∧
    (∀ r, EngineEvent.re_entry_suggested r ∉ (applyTimeTick sampleState 9).2) :=
  ⟨((applyTimeTick_reentry_edge recentNoHistoryState 5).1 TimeRange.long_gap).mpr
      ⟨rfl, Or.inr rfl, by decide⟩,
    (applyTimeTick_reentry_edge sampleState 9).2 (Or.inr rfl)⟩

/-- The stat gate holds exactly when every present minimum is met. -/
lemma meetsStatRequirements_iff (state : CharacterState)
    (statReq : StatRequirement) :
    meetsStatRequirements state statReq = true ↔
      ∀ m, statReq.minimum = some m →
        ∀ k v, m k = some v → v ≤ state.stats k := by
  rcases hm : statReq.minimum with _ | m
  · simp [meetsStatRequirements, hm]
  · simp only [meetsStatRequirements, hm, List.all_eq_true, Option.some.injEq,
      forall_eq']
    constructor
    · intro h k v hkv
      have hk := h k (by cases k <;> simp [statKeyList])
      rw [hkv] at hk
      exact of_decide_eq_true hk
    · intro h k _
      rcases hx : m k with _ | v
      · rfl
      · exact decide_eq_true (h k v hx)

/-- The flag gate holds exactly when all required flags are present and no
blocked flag is present. -/
lemma meetsFlagRequirements_iff (state : CharacterState)
    (flagReq : FlagRequirement) :
    meetsFlagRequirements state flagReq = true ↔
      ((∀ req, flagReq.required = some req → ∀ f ∈ req, f ∈ state.flags) ∧
       (∀ bl, flagReq.blocked = some bl → ∀ f ∈ bl, f ∉ state.flags)) := by
  have hcollapse : ∀ (l : List String) (p : String → Bool),
      (if l.length > 0 then l.all p else true) = l.all p := by
    intro l p
    cases l <;> simp
  rcases hr : flagReq.required with _ | req <;>
    rcases hb : flagReq.blocked with _ | bl <;>
      simp [meetsFlagRequirements, hr, hb, hcollapse, List.all_eq_true]

/-- C6: `isQuestAvailable` is the conjunction of the stat gate and the flag
gate, and its value never depends on the tick instant, the time context,
or the relevance hints. -/
theorem isQuestAvailable_gates (state : CharacterState)
    (quest : QuestNodeWithAvailability) (nowMs : Int) :
    (isQuestAvailable state quest nowMs = true ↔
      ((∀ sr, quest.availability.stats = some sr →
          ∀ m, sr.minimum = some m →
            ∀ k v, m k = some v → v ≤ state.stats k) ∧
       (∀ fr, quest.availability.flags = some fr →
          ((∀ req, fr.required = some req → ∀ f ∈ req, f ∈ state.flags) ∧
           (∀ bl, fr.blocked = some bl → ∀ f ∈ bl, f ∉ state.flags))))) ∧
    (∀ (nowMs2 : Int) (tc2 : TimeContext) (rel2 : Option Relevance),
      isQuestAvailable { state with timeContext := tc2 }
        { quest with availability := { quest.availability with relevance := rel2 } }
        nowMs2
        = isQuestAvailable state quest nowMs) := by
  constructor
  · simp only [isQuestAvailable, Bool.and_eq_true]
    rcases has : quest.availability.stats with _ | sr <;>
      rcases haf : quest.availability.flags with _ | fr <;>
        simp [has, haf, meetsStatRequirements_iff, meetsFlagRequirements_iff]
  · intro nowMs2 tc2 rel2
    rfl

/-- Witness for C6: the stat/flag gates evaluated on a concrete state and
quest (no availability constraints, so both gates pass). -/
theorem isQuestAvailable_gates_witness :
    isQuestAvailable sampleState plusAgencyQuest 3 = true ∧
    isQuestAvailable
      { sampleState with
          timeContext := { range := TimeRange.recent, nowMs := 77, lastMeaningfulActionMs := some 9 } }
      { plusAgencyQuest with
          availability :=
            { plusAgencyQuest.availability with
                relevance := some { preferredRanges := some [TimeRange.recent] } } }
      99
      = isQuestAvailable sampleState plusAgencyQuest 3 :=
  ⟨(isQuestAvailable_gates sampleState plusAgencyQuest 3).1.mpr
      ⟨fun sr hsr => by simp [plusAgencyQuest] at hsr,
        fun fr hfr => by simp [plusAgencyQuest] at hfr⟩,
    (isQuestAvailable_gates sampleState plusAgencyQuest 3).2 99
      { range := TimeRange.recent, nowMs := 77, lastMeaningfulActionMs := some 9 }
      (some { preferredRanges := some [TimeRange.recent] })⟩

/-- Membership in a conditional singleton. -/
lemma mem_ite_singleton {α : Type} (e x : α) (c : Prop) [Decidable c] :
    e ∈ (if c then [x] else []) ↔ c ∧ e = x := by
  split <;> simp_all

/-- The event list of `applyQuestCompleted` as the concatenation of its
four conditional segments followed by the completion event. -/
lemma applyQuestCompleted_events_eq (state : CharacterState)
    (quest : QuestNodeWithAvailability) (nowMs : Int) :
    (applyQuestCompleted state quest nowMs).2 =
      (match quest.consequence.statChanges with
        | some deltas =>
          if hasAnyDelta deltas then [EngineEvent.stat_changed deltas] else []
        | none => []) ++
      (if (match quest.consequence.flagsToSet with
            | some fs => decide (fs.length > 0)
            | none => false)
          || (match quest.consequence.flagsToClear with
              | some fc => decide (fc.length > 0)
              | none => false) then
        [EngineEvent.flag_changed quest.consequence.flagsToSet
          quest.consequence.flagsToClear]
      else []) ++
      (match quest.consequence.unlocksQuests with
        | some ids =>
          if ids.length > 0 then [EngineEvent.quests_unlocked ids] else []
        | none => []) ++
      (if state.timeContext.range ≠ TimeRange.recent then
        [EngineEvent.time_context_changed state.timeContext.range TimeRange.recent]
      else []) ++
      [EngineEvent.quest_completed quest.id quest.type] := rfl

/-- The stat event appears exactly when a non-empty delta block is present,
and carries the raw requested deltas. -/
lemma qcEvents_stat_mem (state : CharacterState)
    (quest : QuestNodeWithAvailability) (nowMs : Int) (d : PartialStats) :
    EngineEvent.stat_changed d ∈ (applyQuestCompleted state quest nowMs).2 ↔
      (quest.consequence.statChanges = some d ∧ hasAnyDelta d = true) := by
  rw [applyQuestCompleted_events_eq]
  rcases hsc : quest.consequence.statChanges with _ | deltas <;>
    rcases hu : quest.consequence.unlocksQuests with _ | ids
  · simp [mem_ite_singleton]
  · simp [mem_ite_singleton]
  · cases hd : hasAnyDelta deltas <;> simp [hd, mem_ite_singleton]
    · rintro rfl
      simp [hd]
    · constructor
      · rintro rfl
        exact ⟨rfl, hd⟩
      · rintro ⟨rfl, _⟩
        rfl
  · cases hd : hasAnyDelta deltas <;> simp [hd, mem_ite_singleton]
    · rintro rfl
      simp [hd]
    · constructor
      · rintro rfl
        exact ⟨rfl, hd⟩
      · rintro ⟨rfl, _⟩
        rfl

/-- The flag event appears exactly when one of the flag lists is present
and non-empty, and carries the two optional lists as requested. -/
lemma qcEvents_flag_mem (state : CharacterState)
    (quest : QuestNodeWithAvailability) (nowMs : Int)
    (fs fc : Option (List String)) :
    EngineEvent.flag_changed fs fc ∈ (applyQuestCompleted state quest nowMs).2 ↔
      (fs = quest.consequence.flagsToSet ∧ fc = quest.consequence.flagsToClear ∧
        ((∃ l, quest.consequence.flagsToSet = some l ∧ l ≠ []) ∨
         (∃ l, quest.consequence.flagsToClear = some l ∧ l ≠ []))) := by
  rw [applyQuestCompleted_events_eq]
  rcases hsc : quest.consequence.statChanges with _ | deltas <;>
    rcases hu : quest.consequence.unlocksQuests with _ | ids <;>
      rcases hfs : quest.consequence.flagsToSet with _ | ls <;>
        rcases hfc : quest.consequence.flagsToClear with _ | lc <;>
          simp [mem_ite_singleton, List.length_pos, hfs, hfc] <;>
            tauto

/-- The unlock event appears exactly when a non-empty unlock list is
present. -/
lemma qcEvents_unlock_mem (state : CharacterState)
    (quest : QuestNodeWithAvailability) (nowMs : Int) (u : List String) :
    EngineEvent.quests_unlocked u ∈ (applyQuestCompleted state quest nowMs).2 ↔
      (quest.consequence.unlocksQuests = some u ∧ u ≠ []) := by
  rw [applyQuestCompleted_events_eq]
  rcases hsc : quest.consequence.statChanges with _ | deltas <;>
    rcases hu : quest.consequence.unlocksQuests with _ | ids <;>
      simp [mem_ite_singleton, List.length_pos]
  all_goals constructor
  all_goals first
    | (rintro ⟨h1, rfl⟩; exact ⟨rfl, h1⟩)
    | (rintro ⟨rfl, h2⟩; exact ⟨h2, rfl⟩)

/-- The time event appears exactly when the previous range was not already
`recent`. -/
lemma qcEvents_time_mem (state : CharacterState)
    (quest : QuestNodeWithAvailability) (nowMs : Int) (pr nr : TimeRange) :
    EngineEvent.time_context_changed pr nr ∈ (applyQuestCompleted state quest nowMs).2 ↔
      (pr = state.timeContext.range ∧ nr = TimeRange.recent ∧
        state.timeContext.range ≠ TimeRange.recent) := by
  rw [applyQuestCompleted_events_eq]
  rcases hsc : quest.consequence.statChanges with _ | deltas <;>
    rcases hu : quest.consequence.unlocksQuests with _ | ids <;>
      simp [mem_ite_singleton] <;>
        tauto

/-- C2: the fixed event order of `applyQuestCompleted`: the completion
event is always emitted and always last; each of the other four events
appears exactly under its non-emptiness / change condition, the stat event
carrying the raw requested deltas; and the whole list is ordered
stat / flag / unlock / time / completed. -/
theorem applyQuestCompleted_event_order (state : CharacterState)
    (quest : QuestNodeWithAvailability) (nowMs : Int) :
    ((applyQuestCompleted state quest nowMs).2.getLast?
      = some (EngineEvent.quest_completed quest.id quest.type)) ∧
    (∀ d, EngineEvent.stat_changed d ∈ (applyQuestCompleted state quest nowMs).2 ↔
      (quest.consequence.statChanges = some d ∧ hasAnyDelta d = true)) ∧
    (∀ fs fc, EngineEvent.flag_changed fs fc ∈ (applyQuestCompleted state quest nowMs).2 ↔
      (fs = quest.consequence.flagsToSet ∧ fc = quest.consequence.flagsToClear ∧
        ((∃ l, quest.consequence.flagsToSet = some l ∧ l ≠ []) ∨
         (∃ l, quest.consequence.flagsToClear = some l ∧ l ≠ [])))) ∧
    (∀ u, EngineEvent.quests_unlocked u ∈ (applyQuestCompleted state quest nowMs).2 ↔
      (quest.consequence.unlocksQuests = some u ∧ u ≠ [])) ∧
    (∀ pr nr, EngineEvent.time_context_changed pr nr ∈ (applyQuestCompleted state quest nowMs).2 ↔
      (pr = state.timeContext.range ∧ nr = TimeRange.recent ∧
        state.timeContext.range ≠ TimeRange.recent)) ∧
    List.Sublist (applyQuestCompleted state quest nowMs).2
      [EngineEvent.stat_changed
          ((quest.consequence.statChanges).getD (fun _ => none)),
        EngineEvent.flag_changed quest.consequence.flagsToSet
          quest.consequence.flagsToClear,
        EngineEvent.quests_unlocked ((quest.consequence.unlocksQuests).getD []),
        EngineEvent.time_context_changed state.timeContext.range TimeRange.recent,
        EngineEvent.quest_completed quest.id quest.type] := by
  refine ⟨?_, qcEvents_stat_mem state quest nowMs,
    qcEvents_flag_mem state quest nowMs, qcEvents_unlock_mem state quest nowMs,
    qcEvents_time_mem state quest nowMs, ?_⟩
  · rw [applyQuestCompleted_events_eq, List.getLast?_concat]
  · rw [applyQuestCompleted_events_eq]
    have step : ∀ (a : EngineEvent) (c : Prop) [Decidable c],
        List.Sublist (if c then [a] else []) [a] := by
      intro a c hc
      split
      · exact List.Sublist.refl [a]
      · exact List.nil_sublist [a]
    have seg1 : List.Sublist
        (match quest.consequence.statChanges with
          | some deltas =>
            if hasAnyDelta deltas then [EngineEvent.stat_changed deltas] else []
          | none => [])
        [EngineEvent.stat_changed
          ((quest.consequence.statChanges).getD (fun _ => none))] := by
      rcases hsc : quest.consequence.statChanges with _ | deltas
      · exact List.nil_sublist _
      · simp only [hsc, Option.getD_some]
        exact step (EngineEvent.stat_changed deltas) (hasAnyDelta deltas = true)
    have seg3 : List.Sublist
        (match quest.consequence.unlocksQuests with
          | some ids =>
            if ids.length > 0 then [EngineEvent.quests_unlocked ids] else []
          | none => [])
        [EngineEvent.quests_unlocked ((quest.consequence.unlocksQuests).getD [])] := by
      rcases hu : quest.consequence.unlocksQuests with _ | ids
      · exact List.nil_sublist _
      · simpa [hu] using step (EngineEvent.quests_unlocked ids) (ids.length > 0)
    show List.Sublist _
      ([EngineEvent.stat_changed
          ((quest.consequence.statChanges).getD (fun _ => none))] ++
        [EngineEvent.flag_changed quest.consequence.flagsToSet
          quest.consequence.flagsToClear] ++
        [EngineEvent.quests_unlocked ((quest.consequence.unlocksQuests).getD [])] ++
        [EngineEvent.time_context_changed state.timeContext.range TimeRange.recent] ++
        [EngineEvent.quest_completed quest.id quest.type])
    refine List.Sublist.append
      (List.Sublist.append
        (List.Sublist.append (List.Sublist.append seg1 ?_) seg3) ?_)
      (List.Sublist.refl _)
    · exact step _ _
    · exact step _ _

/-- Witness for C2 on a quest exercising every consequence branch. -/
theorem applyQuestCompleted_event_order_witness :
    (applyQuestCompleted sampleState fullConsequenceQuest 3).2.getLast?
      = some (EngineEvent.quest_completed "q-full" QuestType.courage) ∧
    (∃ d, EngineEvent.stat_changed d
      ∈ (applyQuestCompleted sampleState fullConsequenceQuest 3).2) ∧
    EngineEvent.quests_unlocked ["q-next"]
      ∈ (applyQuestCompleted sampleState fullConsequenceQuest 3).2 :=
  ⟨(applyQuestCompleted_event_order sampleState fullConsequenceQuest 3).1,
    ⟨_, ((applyQuestCompleted_event_order sampleState fullConsequenceQuest 3).2.1 _).mpr
      ⟨rfl, by decide⟩⟩,
    ((applyQuestCompleted_event_order sampleState fullConsequenceQuest 3).2.2.2.1
      ["q-next"]).mpr ⟨rfl, by simp⟩⟩

/-- A find over events with a satisfied predicate returns a hit. -/
lemma find_some_of_exists {p : EngineEvent → Bool} {l : List EngineEvent}
    (h : ∃ e ∈ l, p e = true) : ∃ a, l.find? p = some a ∧ p a = true := by
  rcases h with ⟨e, he, hp⟩
  rcases hfind : l.find? p with _ | a
  · exact absurd hp (by simpa using List.find?_eq_none.mp hfind e he)
  · exact ⟨a, rfl, List.find?_some hfind⟩

/-- If some summarizable event is present, `summarize` returns a summary. -/
lemma summarize_isSome_of_summarizable (evs : List EngineEvent)
    (st : CharacterState) (h : ∃ e ∈ evs, isSummarizable e = true) :
    (summarize evs st).isSome = true := by
  have hne : evs.length ≠ 0 := by
    rcases h with ⟨e, he, _⟩
    cases evs with
    | nil => cases he
    | cons _ _ => simp
  rcases h1 : evs.find? isQuestCompletedEvent with _ | a1
  case some =>
    have hp := List.find?_some h1
    rcases a1 with ⟨qid, qt⟩ | ⟨qid, qt⟩ | d | ⟨fs, fc⟩ | u | ⟨pr, nr⟩ | r <;>
      simp [isQuestCompletedEvent] at hp
    simp [summarize, hne, h1, foundQuestCompleted]
  have hno1 := List.find?_eq_none.mp h1
  rcases h2 : evs.find? isQuestStartedEvent with _ | a2
  case some =>
    have hp := List.find?_some h2
    rcases a2 with ⟨qid, qt⟩ | ⟨qid, qt⟩ | d | ⟨fs, fc⟩ | u | ⟨pr, nr⟩ | r <;>
      simp [isQuestStartedEvent] at hp
    simp [summarize, hne, h1, h2, foundQuestCompleted, foundQuestStarted]
  have hno2 := List.find?_eq_none.mp h2
  rcases h3 : evs.find? isReEntrySuggestedEvent with _ | a3
  case some =>
    have hp := List.find?_some h3
    rcases a3 with ⟨qid, qt⟩ | ⟨qid, qt⟩ | d | ⟨fs, fc⟩ | u | ⟨pr, nr⟩ | r <;>
      simp [isReEntrySuggestedEvent] at hp
    simp [summarize, hne, h1, h2, h3, foundQuestCompleted, foundQuestStarted,
      foundReEntrySuggested]
  have hno3 := List.find?_eq_none.mp h3
  rcases h4 : evs.find? isTimeContextChangedEvent with _ | a4
  case some =>
    have hp := List.find?_some h4
    rcases a4 with ⟨qid, qt⟩ | ⟨qid, qt⟩ | d | ⟨fs, fc⟩ | u | ⟨pr, nr⟩ | r <;>
      simp [isTimeContextChangedEvent] at hp
    simp [summarize, hne, h1, h2, h3, h4, foundQuestCompleted, foundQuestStarted,
      foundReEntrySuggested, foundTimeContextChanged]
  have hno4 := List.find?_eq_none.mp h4
  rcases h5 : evs.find? isStatChangedEvent with _ | a5
  case some =>
    have hp := List.find?_some h5
    rcases a5 with ⟨qid, qt⟩ | ⟨qid, qt⟩ | d | ⟨fs, fc⟩ | u | ⟨pr, nr⟩ | r <;>
      simp [isStatChangedEvent] at hp
    simp [summarize, hne, h1, h2, h3, h4, h5, foundQuestCompleted,
      foundQuestStarted, foundReEntrySuggested, foundTimeContextChanged,
      foundStatChanged]
  have hno5 := List.find?_eq_none.mp h5
  rcases h6 : evs.find? isFlagChangedEvent with _ | a6
  case some =>
    have hp := List.find?_some h6
    rcases a6 with ⟨qid, qt⟩ | ⟨qid, qt⟩ | d | ⟨fs, fc⟩ | u | ⟨pr, nr⟩ | r <;>
      simp [isFlagChangedEvent] at hp
    simp [summarize, hne, h1, h2, h3, h4, h5, h6, foundQuestCompleted,
      foundQuestStarted, foundReEntrySuggested, foundTimeContextChanged,
      foundStatChanged, foundFlagChanged]
  have hno6 := List.find?_eq_none.mp h6
  rcases h with ⟨e, he, hse⟩
  rcases e with ⟨qid, qt⟩ | ⟨qid, qt⟩ | d | ⟨fs, fc⟩ | u | ⟨pr, nr⟩ | r
  · exact absurd (hno2 _ he) (by simp [isQuestStartedEvent])
  · exact absurd (hno1 _ he) (by simp [isQuestCompletedEvent])
  · exact absurd (hno5 _ he) (by simp [isStatChangedEvent])
  · exact absurd (hno6 _ he) (by simp [isFlagChangedEvent])
  · simp [isSummarizable] at hse
  · exact absurd (hno4 _ he) (by simp [isTimeContextChangedEvent])
  · exact absurd (hno3 _ he) (by simp [isReEntrySuggestedEvent])

/-- C8 (amended): `summarize` returns null exactly when no summarizable
event is present (in particular on the empty list, but also on lists of
only `quests_unlocked` events); otherwise it summarizes the first event of
the highest-priority kind present, the priority being quest_completed,
quest_started, re_entry_suggested, time_context_changed, stat_changed,
flag_changed — conditions on kind presence only, so the chosen kind does
not depend on the order of the list. -/
theorem summarize_priority (evs : List EngineEvent) (st : CharacterState) :
    (summarize evs st = none ↔ ∀ e ∈ evs, isSummarizable e = false) ∧
    ((∃ e ∈ evs, isQuestCompletedEvent e = true) →
      ∃ qid qt, evs.find? isQuestCompletedEvent
          = some (EngineEvent.quest_completed qid qt) ∧
        summarize evs st = some (summarizeQuestCompleted qid qt)) ∧
    ((∀ e ∈ evs, isQuestCompletedEvent e = false) →
      (∃ e ∈ evs, isQuestStartedEvent e = true) →
      ∃ qid qt, evs.find? isQuestStartedEvent
          = some (EngineEvent.quest_started qid qt) ∧
        summarize evs st = some (summarizeQuestStarted qid qt)) ∧
    ((∀ e ∈ evs, isQuestCompletedEvent e = false) →
      (∀ e ∈ evs, isQuestStartedEvent e = false) →
      (∃ e ∈ evs, isReEntrySuggestedEvent e = true) →
      ∃ r, evs.find? isReEntrySuggestedEvent
          = some (EngineEvent.re_entry_suggested r) ∧
        summarize evs st = some (summarizeReEntrySuggested r)) ∧
    ((∀ e ∈ evs, isQuestCompletedEvent e = false) →
      (∀ e ∈ evs, isQuestStartedEvent e = false) →
      (∀ e ∈ evs, isReEntrySuggestedEvent e = false) →
      (∃ e ∈ evs, isTimeContextChangedEvent e = true) →
      ∃ pr nr, evs.find? isTimeContextChangedEvent
          = some (EngineEvent.time_context_changed pr nr) ∧
        summarize evs st = some (summarizeTimeContextChanged pr nr)) ∧
    ((∀ e ∈ evs, isQuestCompletedEvent e = false) →
      (∀ e ∈ evs, isQuestStartedEvent e = false) →
      (∀ e ∈ evs, isReEntrySuggestedEvent e = false) →
      (∀ e ∈ evs, isTimeContextChangedEvent e = false) →
      (∃ e ∈ evs, isStatChangedEvent e = true) →
      ∃ d, evs.find? isStatChangedEvent = some (EngineEvent.stat_changed d) ∧
        summarize evs st = some (summarizeStatChanged d)) ∧
    ((∀ e ∈ evs, isQuestCompletedEvent e = false) →
      (∀ e ∈ evs, isQuestStartedEvent e = false) →
      (∀ e ∈ evs, isReEntrySuggestedEvent e = false) →
      (∀ e ∈ evs, isTimeContextChangedEvent e = false) →
      (∀ e ∈ evs, isStatChangedEvent e = false) →
      (∃ e ∈ evs, isFlagChangedEvent e = true) →
      ∃ fs fc, evs.find? isFlagChangedEvent
          = some (EngineEvent.flag_changed fs fc) ∧
        summarize evs st = some (summarizeFlagChanged fs fc)) := by
  have hlen : ∀ (h : ∃ e ∈ evs, ∃ (b : Bool), b = true), evs.length ≠ 0 := by
    rintro ⟨e, he, _⟩
    cases evs with
    | nil => cases he
    | cons _ _ => simp
  refine ⟨?_, ?_, ?_, ?_, ?_, ?_, ?_⟩
  · constructor
    · intro hnone e he
      by_contra hsumm
      have htrue : isSummarizable e = true := by
        cases hb : isSummarizable e
        · exact absurd hb hsumm
        · rfl
      have := summarize_isSome_of_summarizable evs st ⟨e, he, htrue⟩
      rw [hnone] at this
      cases this
    · intro hall
      cases hlen0 : evs.length with
      | zero => simp [summarize, hlen0]
      | succ n =>
        have hne : evs.length ≠ 0 := by simp [hlen0]
        have h1 : evs.find? isQuestCompletedEvent = none :=
          List.find?_eq_none.mpr fun x hx => by
            have := hall x hx
            cases x <;> simp_all [isSummarizable, isQuestCompletedEvent]
        have h2 : evs.find? isQuestStartedEvent = none :=
          List.find?_eq_none.mpr fun x hx => by
            have := hall x hx
            cases x <;> simp_all [isSummarizable, isQuestStartedEvent]
        have h3 : evs.find? isReEntrySuggestedEvent = none :=
          List.find?_eq_none.mpr fun x hx => by
            have := hall x hx
            cases x <;> simp_all [isSummarizable, isReEntrySuggestedEvent]
        have h4 : evs.find? isTimeContextChangedEvent = none :=
          List.find?_eq_none.mpr fun x hx => by
            have := hall x hx
            cases x <;> simp_all [isSummarizable, isTimeContextChangedEvent]
        have h5 : evs.find? isStatChangedEvent = none :=
          List.find?_eq_none.mpr fun x hx => by
            have := hall x hx
            cases x <;> simp_all [isSummarizable, isStatChangedEvent]
        have h6 : evs.find? isFlagChangedEvent = none :=
          List.find?_eq_none.mpr fun x hx => by
            have := hall x hx
            cases x <;> simp_all [isSummarizable, isFlagChangedEvent]
        simp [summarize, hne, h1, h2, h3, h4, h5, h6, foundQuestCompleted,
          foundQuestStarted, foundReEntrySuggested, foundTimeContextChanged,
          foundStatChanged, foundFlagChanged]
  · intro hex
    obtain ⟨a, hfind, hpa⟩ := find_some_of_exists hex
    have hne : evs.length ≠ 0 := hlen (hex.imp fun e h => ⟨h.1, _, h.2⟩)
    rcases a with ⟨qid, qt⟩ | ⟨qid, qt⟩ | d | ⟨fs, fc⟩ | u | ⟨pr, nr⟩ | r <;>
      simp [isQuestCompletedEvent] at hpa
    exact ⟨qid, qt, hfind,
      by simp [summarize, hne, hfind, foundQuestCompleted]⟩
  · intro hno1 hex
    obtain ⟨a, hfind, hpa⟩ := find_some_of_exists hex
    have hne : evs.length ≠ 0 := hlen (hex.imp fun e h => ⟨h.1, _, h.2⟩)
    have h1 : evs.find? isQuestCompletedEvent = none :=
      List.find?_eq_none.mpr fun x hx => by simp [hno1 x hx]
    rcases a with ⟨qid, qt⟩ | ⟨qid, qt⟩ | d | ⟨fs, fc⟩ | u | ⟨pr, nr⟩ | r <;>
      simp [isQuestStartedEvent] at hpa
    exact ⟨qid, qt, hfind,
      by simp [summarize, hne, h1, hfind, foundQuestCompleted, foundQuestStarted]⟩
  · intro hno1 hno2 hex
    obtain ⟨a, hfind, hpa⟩ := find_some_of_exists hex
    have hne : evs.length ≠ 0 := hlen (hex.imp fun e h => ⟨h.1, _, h.2⟩)
    have h1 : evs.find? isQuestCompletedEvent = none :=
      List.find?_eq_none.mpr fun x hx => by simp [hno1 x hx]
    have h2 : evs.find? isQuestStartedEvent = none :=
      List.find?_eq_none.mpr fun x hx => by simp [hno2 x hx]
    rcases a with ⟨qid, qt⟩ | ⟨qid, qt⟩ | d | ⟨fs, fc⟩ | u | ⟨pr, nr⟩ | r <;>
      simp [isReEntrySuggestedEvent] at hpa
    exact ⟨r, hfind,
      by simp [summarize, hne, h1, h2, hfind, foundQuestCompleted,
        foundQuestStarted, foundReEntrySuggested]⟩
  · intro hno1 hno2 hno3 hex
    obtain ⟨a, hfind, hpa⟩ := find_some_of_exists hex
    have hne : evs.length ≠ 0 := hlen (hex.imp fun e h => ⟨h.1, _, h.2⟩)
    have h1 : evs.find? isQuestCompletedEvent = none :=
      List.find?_eq_none.mpr fun x hx => by simp [hno1 x hx]
    have h2 : evs.find? isQuestStartedEvent = none :=
      List.find?_eq_none.mpr fun x hx => by simp [hno2 x hx]
    have h3 : evs.find? isReEntrySuggestedEvent = none :=
      List.find?_eq_none.mpr fun x hx => by simp [hno3 x hx]
    rcases a with ⟨qid, qt⟩ | ⟨qid, qt⟩ | d | ⟨fs, fc⟩ | u | ⟨pr, nr⟩ | r <;>
      simp [isTimeContextChangedEvent] at hpa
    exact ⟨pr, nr, hfind,
      by simp [summarize, hne, h1, h2, h3, hfind, foundQuestCompleted,
        foundQuestStarted, foundReEntrySuggested, foundTimeContextChanged]⟩
  · intro hno1 hno2 hno3 hno4 hex
    obtain ⟨a, hfind, hpa⟩ := find_some_of_exists hex
    have hne : evs.length ≠ 0 := hlen (hex.imp fun e h => ⟨h.1, _, h.2⟩)
    have h1 : evs.find? isQuestCompletedEvent = none :=
      List.find?_eq_none.mpr fun x hx => by simp [hno1 x hx]
    have h2 : evs.find? isQuestStartedEvent = none :=
      List.find?_eq_none.mpr fun x hx => by simp [hno2 x hx]
    have h3 : evs.find? isReEntrySuggestedEvent = none :=
      List.find?_eq_none.mpr fun x hx => by simp [hno3 x hx]
    have h4 : evs.find? isTimeContextChangedEvent = none :=
      List.find?_eq_none.mpr fun x hx => by simp [hno4 x hx]
    rcases a with ⟨qid, qt⟩ | ⟨qid, qt⟩ | d | ⟨fs, fc⟩ | u | ⟨pr, nr⟩ | r <;>
      simp [isStatChangedEvent] at hpa
    exact ⟨d, hfind,
      by simp [summarize, hne, h1, h2, h3, h4, hfind, foundQuestCompleted,
        foundQuestStarted, foundReEntrySuggested, foundTimeContextChanged,
        foundStatChanged]⟩
  · intro hno1 hno2 hno3 hno4 hno5 hex
    obtain ⟨a, hfind, hpa⟩ := find_some_of_exists hex
    have hne : evs.length ≠ 0 := hlen (hex.imp fun e h => ⟨h.1, _, h.2⟩)
    have h1 : evs.find? isQuestCompletedEvent = none :=
      List.find?_eq_none.mpr fun x hx => by simp [hno1 x hx]
    have h2 : evs.find? isQuestStartedEvent = none :=
      List.find?_eq_none.mpr fun x hx => by simp [hno2 x hx]
    have h3 : evs.find? isReEntrySuggestedEvent = none :=
      List.find?_eq_none.mpr fun x hx => by simp [hno3 x hx]
    have h4 : evs.find? isTimeContextChangedEvent = none :=
      List.find?_eq_none.mpr fun x hx => by simp [hno4 x hx]
    have h5 : evs.find? isStatChangedEvent = none :=
      List.find?_eq_none.mpr fun x hx => by simp [hno5 x hx]
    rcases a with ⟨qid, qt⟩ | ⟨qid, qt⟩ | d | ⟨fs, fc⟩ | u | ⟨pr, nr⟩ | r <;>
      simp [isFlagChangedEvent] at hpa
    exact ⟨fs, fc, hfind,
      by simp [summarize, hne, h1, h2, h3, h4, h5, hfind, foundQuestCompleted,
        foundQuestStarted, foundReEntrySuggested, foundTimeContextChanged,
        foundStatChanged, foundFlagChanged]⟩

/-- C8 counterexample: a non-empty list containing only a `quests_unlocked`
event makes `summarize` return null, so "null exactly when the event list
is empty" is false on the code. -/
theorem summarize_unlock_only_counterexample :
    summarize [EngineEvent.quests_unlocked ["q1"]] sampleState = none ∧
    ([EngineEvent.quests_unlocked ["q1"]] : List EngineEvent) ≠ [] := by
  constructor
  · rfl
  · simp

/-- Witness for C8: completion wins over start regardless of position. -/
theorem summarize_priority_witness :
    ∃ qid qt,
      ([EngineEvent.quest_started "a" QuestType.agency,
        EngineEvent.quest_completed "b" QuestType.order].find?
          isQuestCompletedEvent)
        = some (EngineEvent.quest_completed qid qt) ∧
      summarize
        [EngineEvent.quest_started "a" QuestType.agency,
          EngineEvent.quest_completed "b" QuestType.order] sampleState
        = some (summarizeQuestCompleted qid qt) :=
  (summarize_priority
    [EngineEvent.quest_started "a" QuestType.agency,
      EngineEvent.quest_completed "b" QuestType.order] sampleState).2.1
    ⟨EngineEvent.quest_completed "b" QuestType.order, by simp, rfl⟩

/-- Length of the first selection pass: capped at `m`, otherwise one per
fresh type. -/
lemma selectPassOne_length (m : Nat) (l : List QuestNodeWithAvailability) :
    ∀ (sel : List QuestNodeWithAvailability) (used : List QuestType),
      sel.length ≤ m →
      (selectPassOne m l sel used).length
        = min m (sel.length + freshTypeCount l used) := by
  induction l with
  | nil =>
    intro sel used hsel
    simp [selectPassOne, freshTypeCount, Nat.min_eq_right hsel]
  | cons quest rest ih =>
    intro sel used hsel
    by_cases hge : sel.length ≥ m
    · have heq : sel.length = m := le_antisymm hsel hge
      simp only [selectPassOne, if_pos hge, freshTypeCount]
      omega
    · have hlt : sel.length < m := lt_of_not_ge hge
      by_cases hmem : quest.type ∈ used
      · simp only [selectPassOne, if_neg hge, if_pos hmem, freshTypeCount]
        exact ih sel used hsel
      · simp only [selectPassOne, if_neg hge, if_neg hmem, freshTypeCount]
        rw [ih (sel ++ [quest]) (quest.type :: used) (by simp; omega)]
        simp [List.length_append]
        omega

/-- The first pass extends its accumulator by a sublist of the input. -/
lemma selectPassOne_append (m : Nat) (l : List QuestNodeWithAvailability) :
    ∀ sel used, ∃ d, selectPassOne m l sel used = sel ++ d ∧ List.Sublist d l := by
  induction l with
  | nil =>
    intro sel used
    exact ⟨[], by simp [selectPassOne], List.nil_sublist _⟩
  | cons quest rest ih =>
    intro sel used
    by_cases hge : sel.length ≥ m
    · exact ⟨[], by simp [selectPassOne, hge], List.nil_sublist _⟩
    · by_cases hmem : quest.type ∈ used
      · obtain ⟨d, hd, hs⟩ := ih sel used
        exact ⟨d, by simp only [selectPassOne, if_neg hge, if_pos hmem]; exact hd,
          List.Sublist.cons _ hs⟩
      · obtain ⟨d, hd, hs⟩ := ih (sel ++ [quest]) (quest.type :: used)
        refine ⟨quest :: d, ?_, List.Sublist.cons₂ _ hs⟩
        simp only [selectPassOne, if_neg hge, if_neg hmem]
        rw [hd]
        simp

/-- The first pass never selects two quests of the same type. -/
lemma selectPassOne_types_nodup (m : Nat) (l : List QuestNodeWithAvailability) :
    ∀ sel used,
      ((sel.map fun q => q.type).Nodup) →
      (∀ t ∈ sel.map fun q => q.type, t ∈ used) →
      (((selectPassOne m l sel used).map fun q => q.type).Nodup) := by
  induction l with
  | nil =>
    intro sel used h1 _
    simpa [selectPassOne] using h1
  | cons quest rest ih =>
    intro sel used h1 h2
    by_cases hge : sel.length ≥ m
    · simpa [selectPassOne, hge] using h1
    · by_cases hmem : quest.type ∈ used
      · simp only [selectPassOne, if_neg hge, if_pos hmem]
        exact ih sel used h1 h2
      · simp only [selectPassOne, if_neg hge, if_neg hmem]
        apply ih
        · have hq : quest.type ∉ sel.map fun q => q.type :=
            fun hmm => hmem (h2 _ hmm)
          simp [List.nodup_append, h1, hq]
        · intro t ht
          rcases (by simpa using ht :
              t ∈ (sel.map fun q => q.type) ∨ t = quest.type) with hl | rfl
          · exact List.mem_cons_of_mem _ (h2 _ hl)
          · exact List.mem_cons_self _ _

/-- The second pass is the identity once the accumulator is full. -/
lemma selectPassTwo_of_ge (m : Nat) (l : List QuestNodeWithAvailability) :
    ∀ sel, m ≤ sel.length → selectPassTwo m l sel = sel := by
  induction l with
  | nil => intro sel _; rfl
  | cons quest rest _ =>
    intro sel h
    simp [selectPassTwo, h]

/-- The second pass extends its accumulator by a sublist of the input. -/
lemma selectPassTwo_append (m : Nat) (l : List QuestNodeWithAvailability) :
    ∀ sel, ∃ d, selectPassTwo m l sel = sel ++ d ∧ List.Sublist d l := by
  induction l with
  | nil =>
    intro sel
    exact ⟨[], by simp [selectPassTwo], List.nil_sublist _⟩
  | cons quest rest ih =>
    intro sel
    by_cases hge : sel.length ≥ m
    · exact ⟨[], by simp [selectPassTwo, hge], List.nil_sublist _⟩
    · by_cases hmem : quest ∈ sel
      · obtain ⟨d, hd, hs⟩ := ih sel
        exact ⟨d, by simp only [selectPassTwo, if_neg hge, if_pos hmem]; exact hd,
          List.Sublist.cons _ hs⟩
      · obtain ⟨d, hd, hs⟩ := ih (sel ++ [quest])
        refine ⟨quest :: d, ?_, List.Sublist.cons₂ _ hs⟩
        simp only [selectPassTwo, if_neg hge, if_neg hmem]
        rw [hd]
        simp

/-- Length of the second pass on a duplicate-free input: capped at `m`,
otherwise everything not already selected is appended. -/
lemma selectPassTwo_length (m : Nat) (l : List QuestNodeWithAvailability) :
    l.Nodup → ∀ sel, sel.length ≤ m →
      (selectPassTwo m l sel).length
        = min m (sel.length + (l.filter fun q => decide (q ∉ sel)).length) := by
  induction l with
  | nil =>
    intro _ sel hsel
    simp [selectPassTwo, Nat.min_eq_right hsel]
  | cons quest rest ih =>
    intro hnd sel hsel
    have hqrest : quest ∉ rest := (List.nodup_cons.mp hnd).1
    have hrest : rest.Nodup := (List.nodup_cons.mp hnd).2
    by_cases hge : sel.length ≥ m
    · have heq : sel.length = m := le_antisymm hsel hge
      simp only [selectPassTwo, if_pos hge]
      omega
    · by_cases hmem : quest ∈ sel
      · simp only [selectPassTwo, if_neg hge, if_pos hmem]
        rw [ih hrest sel hsel]
        simp [List.filter_cons, hmem]
      · simp only [selectPassTwo, if_neg hge, if_neg hmem]
        rw [ih hrest (sel ++ [quest]) (by simp; omega)]
        have hfeq : rest.filter (fun q => decide (q ∉ sel ++ [quest]))
            = rest.filter (fun q => decide (q ∉ sel)) := by
          apply List.filter_congr
          intro x hx
          have hxq : ¬x = quest := fun h => hqrest (h ▸ hx)
          simp [decide_eq_decide, List.mem_append, hxq]
        rw [hfeq]
        simp [List.filter_cons, hmem, List.length_append]
        omega

/-- On a duplicate-free list, what is selected plus what remains
unselected is at least the whole list. -/
lemma filter_partition_le (fp quests : List QuestNodeWithAvailability)
    (hnd : quests.Nodup) :
    quests.length ≤ fp.length + (quests.filter fun q => decide (q ∉ fp)).length := by
  have hpart := List.length_eq_length_filter_add
    (l := quests) (fun q => decide (q ∈ fp))
  have hsub : (quests.filter fun q => decide (q ∈ fp)).length ≤ fp.length := by
    apply List.Subperm.length_le
    apply List.Nodup.subperm (hnd.filter _)
    intro x hx
    simpa using (List.mem_filter.mp hx).2
  have hneg : (quests.filter fun q => !(decide (q ∈ fp))).length
      = (quests.filter fun q => decide (q ∉ fp)).length := by
    congr 1
    apply List.filter_congr
    intro x _
    simp [decide_not]
  omega

/-- `freshTypeCount` counts the types of the list not yet used. -/
lemma freshTypeCount_eq (l : List QuestNodeWithAvailability) :
    ∀ used : List QuestType,
      freshTypeCount l used
        = ((l.map fun q => q.type).toFinset \ used.toFinset).card := by
  induction l with
  | nil => intro used; simp [freshTypeCount]
  | cons quest rest ih =>
    intro used
    by_cases hmem : quest.type ∈ used
    · simp only [freshTypeCount, if_pos hmem, List.map_cons, List.toFinset_cons]
      rw [Finset.insert_sdiff_of_mem _ (List.mem_toFinset.mpr hmem)]
      exact ih used
    · simp only [freshTypeCount, if_neg hmem, List.map_cons, List.toFinset_cons]
      rw [ih (quest.type :: used)]
      rw [Finset.insert_sdiff_of_not_mem _ (by simpa using hmem)]
      simp only [List.toFinset_cons, Finset.sdiff_insert]
      by_cases hin : quest.type
          ∈ ((rest.map fun q => q.type).toFinset \ used.toFinset)
      · rw [Finset.card_erase_of_mem hin, Finset.insert_eq_self.mpr hin]
        have hpos : 0 < ((rest.map fun q => q.type).toFinset \ used.toFinset).card :=
          Finset.card_pos.mpr ⟨_, hin⟩
        omega
      · rw [Finset.erase_eq_of_not_mem hin, Finset.card_insert_of_not_mem hin]
        omega

/-- C7 (amended): short lists are returned unchanged; on duplicate-free
input the output length is min(maxChoices, input length); when at least
maxChoices distinct types are present the output covers maxChoices
distinct types; and the output is two rank-respecting passes. -/
theorem selectQuestChoices_spec (state : CharacterState)
    (quests : List QuestNodeWithAvailability) (nowMs : Int) (m : Nat) :
    (quests.length ≤ m → selectQuestChoices state quests nowMs m = quests) ∧
    (quests.Nodup →
      (selectQuestChoices state quests nowMs m).length = min m quests.length) ∧
    (m ≤ (quests.map fun q => q.type).toFinset.card →
      (((selectQuestChoices state quests nowMs m).map fun q => q.type).Nodup ∧
        (selectQuestChoices state quests nowMs m).length = m)) ∧
    (∃ a b, selectQuestChoices state quests nowMs m = a ++ b ∧
      List.Sublist a quests ∧ List.Sublist b quests) := by
  by_cases h0 : quests.length = 0
  · have hq : quests = [] := List.length_eq_zero.mp h0
    subst hq
    refine ⟨fun _ => by simp [selectQuestChoices],
      fun _ => by simp [selectQuestChoices], ?_,
      ⟨[], [], by simp [selectQuestChoices], List.nil_sublist _, List.nil_sublist _⟩⟩
    intro hm
    have hm0 : m = 0 := by simpa using hm
    simp [selectQuestChoices, hm0]
  · by_cases hle : quests.length ≤ m
    · have hres : selectQuestChoices state quests nowMs m = quests := by
        simp [selectQuestChoices, h0, hle]
      refine ⟨fun _ => hres, fun _ => by rw [hres, Nat.min_eq_right hle], ?_,
        ⟨quests, [], by simp [hres], List.Sublist.refl _, List.nil_sublist _⟩⟩
      intro hm
      have hcard_le : (quests.map fun q => q.type).toFinset.card ≤ quests.length := by
        have := List.toFinset_card_le (l := quests.map fun q => q.type)
        simpa using this
      have hlen_eq : quests.length = m := le_antisymm hle (le_trans hm hcard_le)
      have hdl : (quests.map fun q => q.type).dedup.length
          = (quests.map fun q => q.type).length := by
        have hc := List.card_toFinset (l := quests.map fun q => q.type)
        have hml : (quests.map fun q => q.type).length = quests.length := by simp
        omega
      have hnodup_types : (quests.map fun q => q.type).Nodup :=
        List.dedup_eq_self.mp (List.Sublist.eq_of_length (List.dedup_sublist _) hdl)
      exact ⟨by rw [hres]; exact hnodup_types, by rw [hres, hlen_eq]⟩
    · have hgt : m < quests.length := lt_of_not_ge hle
      have hres : selectQuestChoices state quests nowMs m
          = selectPassTwo m quests (selectPassOne m quests [] []) := by
        simp [selectQuestChoices, h0, hle]
      have hfp_len : (selectPassOne m quests [] []).length
          = min m (freshTypeCount quests []) := by
        simpa using selectPassOne_length m quests [] [] (Nat.zero_le m)
      have hfp_le : (selectPassOne m quests [] []).length ≤ m := by
        rw [hfp_len]
        exact Nat.min_le_left _ _
      refine ⟨fun h => absurd h hle, ?_, ?_, ?_⟩
      · intro hnd
        rw [hres, selectPassTwo_length m quests hnd _ hfp_le]
        have hpart := filter_partition_le (selectPassOne m quests [] []) quests hnd
        omega
      · intro hm
        have hftc : freshTypeCount quests []
            = (quests.map fun q => q.type).toFinset.card := by
          simpa using freshTypeCount_eq quests []
        have hfp_eq : (selectPassOne m quests [] []).length = m := by
          rw [hfp_len, hftc]
          exact Nat.min_eq_left hm
        have hstop : selectPassTwo m quests (selectPassOne m quests [] [])
            = selectPassOne m quests [] [] :=
          selectPassTwo_of_ge m quests _ (le_of_eq hfp_eq.symm)
        rw [hres, hstop]
        exact ⟨selectPassOne_types_nodup m quests [] [] (by simp) (by simp), hfp_eq⟩
      · obtain ⟨d1, hd1, hs1⟩ := selectPassOne_append m quests [] []
        obtain ⟨d2, hd2, hs2⟩ := selectPassTwo_append m quests (selectPassOne m quests [] [])
        refine ⟨selectPassOne m quests [] [], d2, by rw [hres, hd2], ?_, hs2⟩
        rw [hd1]
        simpa using hs1

/-- C7 counterexample: with the same quest listed four times and
maxChoices 3, the output has length 1, not min(3, 4): the length
postcondition fails on inputs with duplicates. -/
theorem selectQuestChoices_duplicates_counterexample :
    (selectQuestChoices sampleState
      [plusAgencyQuest, plusAgencyQuest, plusAgencyQuest, plusAgencyQuest]
      0 3).length
      ≠ min 3 ([plusAgencyQuest, plusAgencyQuest, plusAgencyQuest,
          plusAgencyQuest] : List QuestNodeWithAvailability).length := by
  decide

/-- Witness for C7 on four distinct quests over all three types. -/
theorem selectQuestChoices_spec_witness :
    (selectQuestChoices sampleState rankedSampleQuests 0 3).length
      = min 3 rankedSampleQuests.length ∧
    ((selectQuestChoices sampleState rankedSampleQuests 0 3).map
      fun q => q.type).Nodup :=
  ⟨(selectQuestChoices_spec sampleState rankedSampleQuests 0 3).2.1 (by decide),
    ((selectQuestChoices_spec sampleState rankedSampleQuests 0 3).2.2.1
      (by decide)).1⟩

end LifeGame
